import Mathlib

/-!
Verification of the `appsync-client-node` repository: a shallow embedding of
its GraphQL client (`src/index.ts`, current revision as embedded in the test
fixture) together with proofs about the claims of its specification.

The embedded pieces are:
* the `gql` template tag and its four JavaScript `String.replace` passes
  (modelled with exact JS `RegExp` global-replace semantics: leftmost,
  greedy-with-backtracking matches found on the original string);
* the region-inference regular expression and region resolution order;
* the `graphQlClient` retry/timeout loop (connection resets retried while
  `maxRetries > 1`, recursive call with the default timeout);
* the content-type decision of the response parser;
* the error surfacing branch of `appSyncClient`.
-/

namespace AppSyncClientNode

/-- JavaScript `\s` character class (`RegExp` WhiteSpace ∪ LineTerminator). -/
def jsWhitespace (c : Char) : Bool :=
  c == ' ' || c == '\t' || c == '\n' || c == '\r' ||
  c == '\x0b' || c == '\x0c' || c == Char.ofNat 0xa0 ||
  c == Char.ofNat 0x1680 ||
  (Char.ofNat 0x2000 ≤ c && c ≤ Char.ofNat 0x200a) ||
  c == Char.ofNat 0x2028 || c == Char.ofNat 0x2029 ||
  c == Char.ofNat 0x202f || c == Char.ofNat 0x205f ||
  c == Char.ofNat 0x3000 || c == Char.ofNat 0xfeff

/-- JavaScript LineTerminator set, used by multiline `^` and `$` assertions. -/
def jsLineTerm (c : Char) : Bool :=
  c == '\n' || c == '\r' || c == Char.ofNat 0x2028 || c == Char.ofNat 0x2029

/-- Length of the maximal run of `\s` characters at the head of the list. -/
def wsRun : List Char → Nat
  | [] => 0
  | c :: rest => if jsWhitespace c then wsRun rest + 1 else 0

/-- Multiline `$` holds here: end of input, or a line terminator follows. -/
def atEol : List Char → Bool
  | [] => true
  | c :: _ => jsLineTerm c

/-- Does `p` occur at the head of `l`? (JS literal sequence matching.) -/
def startsWithChars : List Char → List Char → Bool
  | [], _ => true
  | _ :: _, [] => false
  | p :: ps, c :: cs => p == c && startsWithChars ps cs

/-- Largest `k ≤ bound` such that multiline `$` holds after dropping `k`
characters: the greedy-with-backtracking extent of `\s*` in `\s*$`. -/
def bestTrailFrom (l : List Char) : Nat → Option Nat
  | 0 => if atEol l then some 0 else none
  | k + 1 => if atEol (l.drop (k + 1)) then some (k + 1) else bestTrailFrom l k

/-- Lookahead text of the third pass: the literal letters of `import`. -/
def importChars : List Char := ['i', 'm', 'p', 'o', 'r', 't']

/-- Largest `k ≤ bound` such that the negative lookahead `(?!import)` holds
after dropping `k` characters of `after`: the greedy-with-backtracking extent
of the second `\s*` in `#\s*(?!import)`. -/
def bestCommentGap (after : List Char) : Nat → Option Nat
  | 0 => if startsWithChars importChars after then none else some 0
  | k + 1 =>
    if startsWithChars importChars (after.drop (k + 1)) then bestCommentGap after k
    else some (k + 1)

/-- Length matched by `.*` (any characters up to the next line terminator). -/
def dotRun : List Char → Nat
  | [] => 0
  | c :: rest => if jsLineTerm c then 0 else dotRun rest + 1

/-- Largest `k ≤ bound` such that a literal `'\n'` follows after dropping `k`
characters: the greedy-with-backtracking extent of `[\s\t]*` in `\n[\s\t]*\n`. -/
def bestNlGap (rest : List Char) : Nat → Option Nat
  | 0 => if rest.head? == some '\n' then some 0 else none
  | k + 1 =>
    if (rest.drop (k + 1)).head? == some '\n' then some (k + 1) else bestNlGap rest k

/-- Matcher for `/^\s+/m` at the current position (`atStart`: the position is
the string start or follows a line terminator). Returns the match length. -/
def matchLeadWs (atStart : Bool) (l : List Char) : Option Nat :=
  if atStart then
    match wsRun l with
    | 0 => none
    | n + 1 => some (n + 1)
  else none

/-- Matcher for `/\s*$/m` at the current position (may match empty). -/
def matchTrailWs (l : List Char) : Option Nat :=
  bestTrailFrom l (wsRun l)

/-- Matcher for `/^\s*#\s*(?!import).*$/m` at the current position. -/
def matchComment (atStart : Bool) (l : List Char) : Option Nat :=
  if atStart then
    let w1 := wsRun l
    match l.drop w1 with
    | '#' :: after =>
      match bestCommentGap after (wsRun after) with
      | some k => some (w1 + 1 + k + dotRun (after.drop k))
      | none => none
    | _ => none
  else none

/-- Matcher for `/\n[\s\t]*\n/` at the current position. -/
def matchBlankPair (l : List Char) : Option Nat :=
  match l with
  | '\n' :: rest => (bestNlGap rest (wsRun rest)).map (fun k => 1 + k + 1)
  | _ => none

/-- JS `String.replace(regexp-with-g, repl)`: scan the original string left to
right; at each position try the matcher; on a match emit `repl`, consume the
matched span and resume right after it (one character further for an empty
match). `skip` counts characters of the current match still to consume;
`atStart` tracks whether the current position starts a line. -/
def scanReplace (m : Bool → List Char → Option Nat) (repl : List Char)
    (atStart : Bool) (skip : Nat) (l : List Char) : List Char :=
  match skip, l with
  | _, [] => []
  | k + 1, c :: rest => scanReplace m repl (jsLineTerm c) k rest
  | 0, c :: rest =>
    match m atStart (c :: rest) with
    | none => c :: scanReplace m repl (jsLineTerm c) 0 rest
    | some 0 => repl ++ c :: scanReplace m repl (jsLineTerm c) 0 rest
    | some (n + 1) => repl ++ scanReplace m repl (jsLineTerm c) n rest

/-- First pass of `gql`: `.replace(/^\s+/gm, "")`. -/
def gqlPass1 (s : String) : String :=
  ⟨scanReplace matchLeadWs [] true 0 s.data⟩

/-- Second pass of `gql`: `.replace(/\s*$/gm, "")`. -/
def gqlPass2 (s : String) : String :=
  ⟨scanReplace (fun _ l => matchTrailWs l) [] true 0 s.data⟩

/-- Third pass of `gql`: `.replace(/^\s*#\s*(?!import).*$/gm, "")`. -/
def gqlPass3 (s : String) : String :=
  ⟨scanReplace matchComment [] true 0 s.data⟩

/-- Fourth pass of `gql`: `.replace(/\n[\s\t]*\n/g, "\n")`. -/
def gqlPass4 (s : String) : String :=
  ⟨scanReplace (fun _ l => matchBlankPair l) ['\n'] true 0 s.data⟩

/-- The whitespace/comment normalisation performed by the `gql` template tag
on the concatenated text (the chain of the four `replace` calls). -/
def gqlNorm (s : String) : String :=
  gqlPass4 (gqlPass3 (gqlPass2 (gqlPass1 s)))

/-- ES `String.raw`: interleave the literal chunks with the stringified
substitution values (missing substitutions contribute the empty string). -/
def stringRaw : List String → List String → String
  | [], _ => ""
  | [c], _ => c
  | c :: cs, vs => c ++ vs.headD "" ++ stringRaw cs vs.tail

/-- The `gql` template tag: `String.raw` over the chunks and substitutions,
then the four normalisation passes. -/
def gql (chunks : List String) (subs : List String) : String :=
  gqlNorm (stringRaw chunks subs)

/-! ## Region resolution -/

/-- The literal tail `.amazonaws.com/` required by the inference regexp. -/
def amazonSuffix : List Char := ".amazonaws.com/".data

/-- Leftmost match of `/\.([^.]+)\.amazonaws\.com\//` over the URL text,
returning the first capture group: at each `'.'`, the greedy `[^.]+` run is
the segment up to the next `'.'` (backtracking cannot help, since a shorter
run would place a non-dot where the pattern needs `'.'`), after which the
literal `.amazonaws.com/` must follow. -/
def inferRegionGo : List Char → Option String
  | [] => none
  | c :: rest =>
    if c == '.' then
      let seg := rest.takeWhile (fun d => d != '.')
      if seg.length > 0 && startsWithChars amazonSuffix (rest.drop seg.length) then
        some ⟨seg⟩
      else inferRegionGo rest
    else inferRegionGo rest

/-- Region inference from the endpoint URL text:
`/\.([^.]+)\.amazonaws\.com\//.exec(appsyncUrl)?.[1]`. -/
def inferRegion (url : String) : Option String :=
  inferRegionGo url.data

/-- The region default of `graphQlClient`: an explicitly supplied value, else
the value parsed from the URL, else the ambient `AWS_REGION` value. -/
def resolveRegion (explicitRegion : Option String) (url : String)
    (ambient : Option String) : Option String :=
  match explicitRegion with
  | some r => some r
  | none =>
    match inferRegion url with
    | some r => some r
    | none => ambient

/-- JS falsiness of the resolved region (`if (!region) throw ...`): absent or
the empty string. -/
def regionMissing : Option String → Bool
  | none => true
  | some r => r.isEmpty

/-! ## Response-body interpretation -/

/-- Does `pat` occur as a contiguous substring of `l`? (JS `String.includes`.) -/
def containsSub (pat : List Char) : List Char → Bool
  | [] => startsWithChars pat []
  | c :: rest => startsWithChars pat (c :: rest) || containsSub pat rest

/-- Character-wise lower casing, as applied by `toLowerCase()` to the
content-type header value. -/
def jsToLower (s : String) : String :=
  ⟨s.data.map Char.toLower⟩

/-- The content-type decision of the transport callback:
`result.headers["content-type"]?.toLowerCase().includes("application/json")`
(an absent header short-circuits to a falsy value). -/
def ctDecision (ct : Option String) : Bool :=
  match ct with
  | none => false
  | some s => containsSub "application/json".data (jsToLower s).data

/-- A response body as returned by `graphQlClient`: raw text, or the result
of `JSON.parse` on the text (kept as the text it parses). -/
inductive Body where
  | text (raw : String)
  | json (raw : String)
deriving DecidableEq, Repr

/-- Body construction in the `end` handler: JSON-parse the accumulated text
exactly when the content-type decision holds, else return the raw text. -/
def interpretBody (ct : Option String) (bodyText : String) : Body :=
  if ctDecision ct then .json bodyText else .text bodyText

/-- Specification-side notion (§4.6): `pat` occurs in the header value under
case-insensitive comparison of the characters. Written from the spec's words,
to be compared with the code's `ctDecision`. -/
def ciStartsWith : List Char → List Char → Bool
  | [], _ => true
  | _ :: _, [] => false
  | p :: ps, c :: cs => (p.toLower == c.toLower) && ciStartsWith ps cs

/-- Specification-side case-insensitive substring containment. -/
def ciContains (pat : List Char) : List Char → Bool
  | [] => ciStartsWith pat []
  | c :: rest => ciStartsWith pat (c :: rest) || ciContains pat rest

/-- Specification-side decision: the content-type header contains `pat` as a
substring under case-insensitive comparison (absent header: no). -/
def containsCaseInsensitive (ct : Option String) (pat : String) : Bool :=
  match ct with
  | none => false
  | some s => ciContains pat.data s.data

/-! ## The execution / retry loop -/

/-- A GraphQL request: query, variables and operation name (the field
`variables` of the source is `variables'` here, the word being reserved in
Lean; it is kept as serialised text, the client never inspects it). -/
structure GraphQlRequest where
  query : String
  variables' : Option String := none
  operationName : Option String := none
deriving DecidableEq, Repr

/-- One of the GraphQL errors of a response (`GraphQLError` of the source;
`data` and `errorInfo` are opaque). -/
structure GraphQLError where
  path : List String := []
  data : Option String := none
  errorType : String := ""
  errorInfo : Option String := none
  message : String := ""
  locations : List (Int × Int × Option String) := []
deriving DecidableEq, Repr

/-- `APPSYNC_MAX_QUERY_RUNTIME_MS = 30 * 1000`, the default per-attempt
timeout. -/
def APPSYNC_MAX_QUERY_RUNTIME_MS : Int := 30 * 1000

/-- The named options of `graphQlClient`; `none` models an absent argument,
so that the destructuring defaults apply. -/
structure ClientOptions where
  appsyncUrl : String
  apiKey : Option String := none
  region : Option String := none
  maxRetries : Int := 5
  timeoutMs : Option Int := none
deriving DecidableEq, Repr

/-- Outcome of a single transport attempt, as determined by the server and
network: a connection reset (`ECONNRESET`), the per-attempt timeout elapsing
before completion, some other errno failure, or a complete response. -/
inductive AttemptOutcome where
  | reset
  | timeout
  | otherError (code : String)
  | response (statusCode : Nat) (contentType : Option String) (bodyText : String)
deriving DecidableEq, Repr

/-- A fulfilled `graphQlClient` promise: status code and interpreted body. -/
structure ExecOk where
  statusCode : Nat
  body : Body
deriving DecidableEq, Repr

/-- A rejected `graphQlClient` promise: the `ReferenceError` thrown for a
missing region, a `TimeoutError` (carrying the per-attempt timeout of its
message and the original request), or an errno error such as `ECONNRESET`. -/
inductive ClientError where
  | referenceError (msg : String)
  | timeoutError (timeoutMs : Int) (request : GraphQlRequest)
  | errnoError (code : String)
deriving DecidableEq, Repr

/-- The `graphQlClient` function. `ambient` is the `AWS_REGION` environment
value, `server` maps each attempt index to its transport outcome, and `idx`
is the index of the next attempt (0 at the outer call). Returns the settled
promise together with the list of per-attempt timeout windows that were used,
in order. On `ECONNRESET` with `maxRetries > 1`, the source re-invokes itself
with only `appsyncUrl`, `apiKey`, `request`, `region` and the decremented
`maxRetries` — in particular with `timeoutMs` and `signal` left to their
defaults. -/
def graphQlClient (ambient : Option String) (server : Nat → AttemptOutcome)
    (request : GraphQlRequest) (opts : ClientOptions) (idx : Nat) :
    Except ClientError ExecOk × List Int :=
  let region := resolveRegion opts.region opts.appsyncUrl ambient
  if regionMissing region then
    (.error (.referenceError "region is required, but was not provided"), [])
  else
    let window := opts.timeoutMs.getD APPSYNC_MAX_QUERY_RUNTIME_MS
    match server idx with
    | .response sc ct bodyText => (.ok ⟨sc, interpretBody ct bodyText⟩, [window])
    | .timeout => (.error (.timeoutError window request), [window])
    | .otherError code => (.error (.errnoError code), [window])
    | .reset =>
      if 1 < opts.maxRetries then
        let next := graphQlClient ambient server request
          { opts with region := some (region.getD ""),
                      maxRetries := opts.maxRetries - 1,
                      timeoutMs := none } (idx + 1)
        (next.1, window :: next.2)
      else
        (.error (.errnoError "ECONNRESET"), [window])
termination_by opts.maxRetries.toNat
decreasing_by simp_all; omega

/-! ## The `appSyncClient` facade -/

/-- A parsed JSON response body `{data, errors?}` as seen by `appSyncClient`
after `JSON.parse` (the `data` payload kept opaque, `none` for `null`). -/
structure GraphQlResponseM where
  data : Option String := none
  errors : Option (List GraphQLError) := none
deriving DecidableEq, Repr

/-- A rejection of `appSyncClient`: the body was plain text (the error keeps
the raw text), or the parsed body carried a non-empty `errors` list. -/
inductive AppSyncError where
  | requestFailed (msg : String)
  | graphQlErrors (errors : List GraphQLError)
deriving DecidableEq, Repr

/-- Error surfacing of `appSyncClient` on a settled `graphQlClient` result
(`statusCode` and the body, the latter given after `JSON.parse`): a string
body throws with the raw text in the message; a parsed body with a non-empty
`errors` list throws; otherwise only `data` is returned. The status code is
never consulted. -/
def appSyncClientSurface (_statusCode : Nat)
    (body : String ⊕ GraphQlResponseM) : Except AppSyncError (Option String) :=
  match body with
  | .inl raw => .error (.requestFailed ("Request to GraphQL failed: " ++ raw))
  | .inr r =>
    match r.errors with
    | some es => if es.length != 0 then .error (.graphQlErrors es) else .ok r.data
    | none => .ok r.data

/-! ## Concrete scenarios and specification-side definitions -/

instance {ε α : Type} [DecidableEq ε] [DecidableEq α] : DecidableEq (Except ε α) := fun a b =>
  match a, b with
  | .ok x, .ok y => decidable_of_iff (x = y) (by simp)
  | .error x, .error y => decidable_of_iff (x = y) (by simp)
  | .ok _, .error _ => isFalse (by simp)
  | .error _, .ok _ => isFalse (by simp)

/-- A server that resets the connection on its first two handling attempts
and succeeds on the third (the retry test of the suite). -/
def resetTwiceServer : Nat → AttemptOutcome := fun i =>
  if i < 2 then .reset else .response 200 (some "application/json") "page-payload"

/-- A server that resets the connection on every attempt. -/
def alwaysResetServer : Nat → AttemptOutcome := fun _ => .reset

/-- A server that never completes a response within the attempt window. -/
def alwaysTimeoutServer : Nat → AttemptOutcome := fun _ => .timeout

/-- A server that resets the first attempt and then never completes. -/
def resetThenTimeoutServer : Nat → AttemptOutcome := fun i =>
  if i == 0 then .reset else .timeout

/-- The request of the concrete scenarios. -/
def pageRequest : GraphQlRequest := { query := "mutation Page" }

/-- Options of the three-retries scenario. -/
def optsRetry3 : ClientOptions :=
  { appsyncUrl := "http://localhost:54321/graphql", region := some "eu-west-1",
    maxRetries := 3 }

/-- Options of the single-retry-budget scenario. -/
def optsRetry1 : ClientOptions :=
  { appsyncUrl := "http://localhost:54321/graphql", region := some "eu-west-1",
    maxRetries := 1 }

/-- Options with a caller-supplied 1000 ms per-attempt timeout. -/
def optsShortTimeout : ClientOptions :=
  { appsyncUrl := "http://localhost:54321/graphql", region := some "eu-west-1",
    maxRetries := 2, timeoutMs := some 1000 }

/-- Options with no explicit region, an endpoint URL whose text ends right
after `.amazonaws.com`, and an API key. -/
def optsNoRegion : ClientOptions :=
  { appsyncUrl := "https://abc.appsync-api.eu-west-1.amazonaws.com",
    apiKey := some "test-api-key" }

/-- A GraphQL-level error, as in the source's doc-comment examples. -/
def sampleGraphQLError : GraphQLError :=
  { errorType := "Unauthorized",
    message := "Not Authorized to access page on type Mutation" }

/-- Split a character list at every dot. -/
def splitOnDot : List Char → List (List Char)
  | [] => [[]]
  | c :: rest =>
    if c = '.' then [] :: splitOnDot rest
    else
      match splitOnDot rest with
      | h :: t => (c :: h) :: t
      | [] => [[c]]

/-- Specification-side pattern (§4.2): the host has shape
`<id>.<region>.amazonaws.com` with a nonempty region label and a nonempty
id part. Written from the spec's words, to be compared with `inferRegion`. -/
def awsHostPattern (host : String) : Bool :=
  match (splitOnDot host.data).reverse with
  | com :: amaz :: reg :: _ :: _ =>
    com == "com".data && amaz == "amazonaws".data && !reg.isEmpty
  | _ => false

/-- First literal chunk of the `gql` call of the repository's own test. -/
def testChunk1 : String :=
  "\n      #import \"./fragments/some.graphql\"\n\n      \x7b\n        hero \x7b\n          name\n          # Queries can have comments!\n          friends \x7b\n            "

/-- Second literal chunk of the `gql` call of the repository's own test. -/
def testChunk2 : String := "\n          \x7d\n        \x7d\n      \x7d\n    "

/-- The inline snapshot the repository's test expects for that call. -/
def testSnapshot : String :=
  "#import \"./fragments/some.graphql\"\n\x7b\nhero \x7b\nname\nfriends \x7b\nname\nage\nsex\n\x7d\n\x7d\n\x7d"

/-- The raw mutation literal of the suite's IAM-authentication test. -/
def mutationChunk : String :=
  "\n        mutation Page($to: String!, $body: String!) \x7b\n          page(to: $to, body: $body) \x7b\n            body\n            to\n            from\n            sentAt\n          \x7d\n        \x7d\n      "

/-- The raw query literal of the suite's timeout and retry tests. -/
def queryChunk : String :=
  "\n            query me \x7b\n              name\n            \x7d\n          "

/-! ## Helper lemmas -/

/-- Region resolution with an explicit region never looks further. -/
theorem resolveRegion_explicit (r url : String) (amb : Option String) :
    resolveRegion (some r) url amb = some r := rfl

/-- When the region check fails, the client throws before any attempt. -/
theorem graphQlClient_regionMissing (ambient : Option String)
    (server : Nat → AttemptOutcome) (request : GraphQlRequest)
    (opts : ClientOptions) (idx : Nat)
    (hm : regionMissing (resolveRegion opts.region opts.appsyncUrl ambient) = true) :
    graphQlClient ambient server request opts idx
      = (.error (.referenceError "region is required, but was not provided"), []) := by
  rw [graphQlClient.eq_def]
  simp [hm]

/-- Window trace: the first attempt runs under the caller's window, every
later attempt under the default. -/
theorem graphQlClient_windows (ambient : Option String)
    (server : Nat → AttemptOutcome) (request : GraphQlRequest) :
    ∀ (fuel : Nat) (opts : ClientOptions) (idx : Nat),
      opts.maxRetries.toNat ≤ fuel →
      regionMissing (resolveRegion opts.region opts.appsyncUrl ambient) = false →
      ∃ ws, (graphQlClient ambient server request opts idx).2
          = opts.timeoutMs.getD APPSYNC_MAX_QUERY_RUNTIME_MS :: ws
        ∧ ∀ w ∈ ws, w = APPSYNC_MAX_QUERY_RUNTIME_MS := by
  intro fuel
  induction fuel with
  | zero =>
    intro opts idx hf hm
    rw [graphQlClient.eq_def]
    simp only [hm, Bool.false_eq_true, if_false]
    cases hs : server idx with
    | response sc ct bodyText => exact ⟨[], rfl, by simp⟩
    | timeout => exact ⟨[], rfl, by simp⟩
    | otherError code => exact ⟨[], rfl, by simp⟩
    | reset =>
      have hr : ¬ 1 < opts.maxRetries := by omega
      simp only [hr, if_false]
      exact ⟨[], rfl, by simp⟩
  | succ f ih =>
    intro opts idx hf hm
    rw [graphQlClient.eq_def]
    simp only [hm, Bool.false_eq_true, if_false]
    cases hs : server idx with
    | response sc ct bodyText => exact ⟨[], rfl, by simp⟩
    | timeout => exact ⟨[], rfl, by simp⟩
    | otherError code => exact ⟨[], rfl, by simp⟩
    | reset =>
      by_cases hr : 1 < opts.maxRetries
      · simp only [hr, if_true]
        obtain ⟨r, hre⟩ : ∃ r, resolveRegion opts.region opts.appsyncUrl ambient = some r := by
          cases hre : resolveRegion opts.region opts.appsyncUrl ambient with
          | none => rw [hre] at hm; simp [regionMissing] at hm
          | some r => exact ⟨r, rfl⟩
        have hm' : r.isEmpty = false := by rw [hre] at hm; simpa [regionMissing] using hm
        obtain ⟨ws', hws', hall'⟩ := ih
          { opts with region := some ((resolveRegion opts.region opts.appsyncUrl ambient).getD ""),
                      maxRetries := opts.maxRetries - 1, timeoutMs := none } (idx + 1)
          (by simp; omega)
          (by simp only [resolveRegion_explicit]; rw [hre]; simpa [regionMissing] using hm')
        refine ⟨_, rfl, ?_⟩
        intro w hw
        rw [hws'] at hw
        rcases List.mem_cons.mp hw with h | h
        · simpa using h
        · exact hall' w h
      · simp only [hr, if_false]
        exact ⟨[], rfl, by simp⟩

/-- Attempt-count bound: at most `max 1 maxRetries.toNat` attempts occur. -/
theorem graphQlClient_length_le (ambient : Option String)
    (server : Nat → AttemptOutcome) (request : GraphQlRequest) :
    ∀ (fuel : Nat) (opts : ClientOptions) (idx : Nat),
      opts.maxRetries.toNat ≤ fuel →
      (graphQlClient ambient server request opts idx).2.length
        ≤ max 1 opts.maxRetries.toNat := by
  intro fuel
  induction fuel with
  | zero =>
    intro opts idx hf
    rw [graphQlClient.eq_def]
    by_cases hm : regionMissing (resolveRegion opts.region opts.appsyncUrl ambient) = true
    · simp [hm]
    · simp only [hm, Bool.false_eq_true, if_false]
      cases hs : server idx with
      | response sc ct bodyText => simp only [List.length_cons, List.length_nil]; omega
      | timeout => simp only [List.length_cons, List.length_nil]; omega
      | otherError code => simp only [List.length_cons, List.length_nil]; omega
      | reset =>
        have hr : ¬ 1 < opts.maxRetries := by omega
        simp only [hr, if_false, List.length_cons, List.length_nil]
        omega
  | succ f ih =>
    intro opts idx hf
    rw [graphQlClient.eq_def]
    by_cases hm : regionMissing (resolveRegion opts.region opts.appsyncUrl ambient) = true
    · simp [hm]
    · simp only [hm, Bool.false_eq_true, if_false]
      cases hs : server idx with
      | response sc ct bodyText => simp only [List.length_cons, List.length_nil]; omega
      | timeout => simp only [List.length_cons, List.length_nil]; omega
      | otherError code => simp only [List.length_cons, List.length_nil]; omega
      | reset =>
        by_cases hr : 1 < opts.maxRetries
        · simp only [hr, if_true]
          have h2 := ih
            { opts with region := some ((resolveRegion opts.region opts.appsyncUrl ambient).getD ""),
                        maxRetries := opts.maxRetries - 1, timeoutMs := none } (idx + 1)
            (by simp; omega)
          simp only [List.length_cons]
          simp at h2
          omega
        · simp only [hr, if_false, List.length_cons, List.length_nil]
          omega

/-- Every attempt that was followed by another attempt had outcome
`ECONNRESET`. -/
theorem graphQlClient_retried_reset (ambient : Option String)
    (server : Nat → AttemptOutcome) (request : GraphQlRequest) :
    ∀ (fuel : Nat) (opts : ClientOptions) (idx : Nat),
      opts.maxRetries.toNat ≤ fuel →
      ∀ k, k + 1 < (graphQlClient ambient server request opts idx).2.length →
        server (idx + k) = .reset := by
  intro fuel
  induction fuel with
  | zero =>
    intro opts idx hf k hk
    rw [graphQlClient.eq_def] at hk
    by_cases hm : regionMissing (resolveRegion opts.region opts.appsyncUrl ambient) = true
    · simp [hm] at hk
    · simp only [hm, Bool.false_eq_true, if_false] at hk
      cases hs : server idx with
      | response sc ct bodyText => rw [hs] at hk; simp at hk
      | timeout => rw [hs] at hk; simp at hk
      | otherError code => rw [hs] at hk; simp at hk
      | reset =>
        rw [hs] at hk
        have hr : ¬ 1 < opts.maxRetries := by omega
        simp only [hr, if_false, List.length_cons, List.length_nil] at hk
        omega
  | succ f ih =>
    intro opts idx hf k hk
    rw [graphQlClient.eq_def] at hk
    by_cases hm : regionMissing (resolveRegion opts.region opts.appsyncUrl ambient) = true
    · simp [hm] at hk
    · simp only [hm, Bool.false_eq_true, if_false] at hk
      cases hs : server idx with
      | response sc ct bodyText => rw [hs] at hk; simp at hk
      | timeout => rw [hs] at hk; simp at hk
      | otherError code => rw [hs] at hk; simp at hk
      | reset =>
        rw [hs] at hk
        by_cases hr : 1 < opts.maxRetries
        · simp only [hr, if_true, List.length_cons] at hk
          match k with
          | 0 => simpa using hs
          | j + 1 =>
            have hj := ih
              { opts with region := some ((resolveRegion opts.region opts.appsyncUrl ambient).getD ""),
                          maxRetries := opts.maxRetries - 1, timeoutMs := none } (idx + 1)
              (by simp; omega) j (by omega)
            have hidx : idx + (j + 1) = idx + 1 + j := by omega
            rw [hidx]
            exact hj
        · simp only [hr, if_false, List.length_cons, List.length_nil] at hk
          omega

/-- One-step evaluation: a timed-out attempt rejects with `TimeoutError`. -/
theorem graphQlClient_timeout_step (ambient : Option String)
    (server : Nat → AttemptOutcome) (request : GraphQlRequest)
    (opts : ClientOptions) (idx : Nat)
    (hm : regionMissing (resolveRegion opts.region opts.appsyncUrl ambient) = false)
    (hs : server idx = .timeout) :
    graphQlClient ambient server request opts idx
      = (.error (.timeoutError (opts.timeoutMs.getD APPSYNC_MAX_QUERY_RUNTIME_MS) request),
         [opts.timeoutMs.getD APPSYNC_MAX_QUERY_RUNTIME_MS]) := by
  rw [graphQlClient.eq_def]
  simp [hm, hs]

/-- One-step evaluation: any non-reset errno failure rejects immediately. -/
theorem graphQlClient_other_step (ambient : Option String)
    (server : Nat → AttemptOutcome) (request : GraphQlRequest)
    (opts : ClientOptions) (idx : Nat) (code : String)
    (hm : regionMissing (resolveRegion opts.region opts.appsyncUrl ambient) = false)
    (hs : server idx = .otherError code) :
    graphQlClient ambient server request opts idx
      = (.error (.errnoError code),
         [opts.timeoutMs.getD APPSYNC_MAX_QUERY_RUNTIME_MS]) := by
  rw [graphQlClient.eq_def]
  simp [hm, hs]

/-- On an already lower-case pattern, matching against the lower-cased text
is the case-insensitive match. -/
theorem startsWith_lower (pat : List Char) :
    (∀ p ∈ pat, p.toLower = p) →
    ∀ l : List Char, startsWithChars pat (l.map Char.toLower) = ciStartsWith pat l := by
  induction pat with
  | nil => intro _ l; cases l <;> rfl
  | cons p ps ih =>
    intro hl l
    cases l with
    | nil => rfl
    | cons c cs =>
      have hp : p.toLower = p := hl p (List.mem_cons_self _ _)
      have ihx := ih (fun q hq => hl q (List.mem_cons_of_mem _ hq)) cs
      simp only [List.map_cons, startsWithChars, ciStartsWith, ihx, hp]

/-- On an already lower-case pattern, substring search in the lower-cased
text is the case-insensitive substring search. -/
theorem contains_lower (pat : List Char) (hl : ∀ p ∈ pat, p.toLower = p) :
    ∀ l : List Char, containsSub pat (l.map Char.toLower) = ciContains pat l := by
  intro l
  induction l with
  | nil =>
    show startsWithChars pat [] = ciStartsWith pat []
    cases pat <;> rfl
  | cons c cs ih =>
    simp only [List.map_cons, containsSub, ciContains, ih,
      ← startsWith_lower pat hl (c :: cs), List.map_cons]

/-- The content-type decision of the source equals the case-insensitive
substring containment the specification describes. -/
theorem ctDecision_eq_ci (ct : Option String) :
    ctDecision ct = containsCaseInsensitive ct "application/json" := by
  cases ct with
  | none => rfl
  | some s =>
    show containsSub "application/json".data (jsToLower s).data
        = ciContains "application/json".data s.data
    have hdata : (jsToLower s).data = s.data.map Char.toLower := rfl
    rw [hdata, contains_lower _ (by decide) s.data]

/-- A list of whitespace characters is one maximal whitespace run. -/
theorem wsRun_all (l : List Char) (h : l.all jsWhitespace = true) :
    wsRun l = l.length := by
  induction l with
  | nil => rfl
  | cons c rest ih =>
    simp only [List.all_cons, Bool.and_eq_true] at h
    simp [wsRun, h.1, ih h.2]

/-- When the pending skip count covers the whole rest, nothing is emitted. -/
theorem scanReplace_consume_all (m : Bool → List Char → Option Nat)
    (repl : List Char) :
    ∀ (l : List Char) (a : Bool), scanReplace m repl a l.length l = [] := by
  intro l
  induction l with
  | nil => intro a; rfl
  | cons c rest ih => intro a; simp only [List.length_cons, scanReplace, ih]

/-- Whitespace-only input normalises to the empty string. -/
theorem gqlNorm_all_ws (s : String) (h : s.data.all jsWhitespace = true) :
    gqlNorm s = "" := by
  obtain ⟨l⟩ := s
  cases l with
  | nil => decide
  | cons c rest =>
    simp only [List.all_cons, Bool.and_eq_true] at h
    have hws : wsRun (c :: rest) = rest.length + 1 := by
      have := wsRun_all (c :: rest) (by simp [h.1, h.2])
      simpa using this
    have hlead : matchLeadWs true (c :: rest) = some (rest.length + 1) := by
      simp [matchLeadWs, hws]
    have hscan : scanReplace matchLeadWs [] true 0 (c :: rest) = [] := by
      simp only [scanReplace, hlead]
      simpa using scanReplace_consume_all matchLeadWs [] rest (jsLineTerm c)
    have h1 : gqlPass1 ⟨c :: rest⟩ = "" := by
      show String.mk (scanReplace matchLeadWs [] true 0 (c :: rest)) = ""
      rw [hscan]
    show gqlPass4 (gqlPass3 (gqlPass2 (gqlPass1 ⟨c :: rest⟩))) = ""
    rw [h1]
    decide

/-- Fidelity check: on the exact chunks and substitution of the repository's
own test, the embedded `gql` reproduces the test's inline snapshot. -/
theorem gql_repo_example :
    gql [testChunk1, testChunk2] ["name\nage\nsex"] = testSnapshot := by decide

/-! ## Claim theorems -/

/-- Claim C1 — only `ECONNRESET` transport failures are ever retried and the
total number of transport attempts is bounded by `maxRetries = n ≥ 1`; a
server resetting the first two attempts and succeeding on the third, with
`maxRetries = 3`, resolves with the success payload after exactly 3 attempts;
a server that always resets, with `maxRetries = 1`, rejects with the reset
error after exactly 1 attempt; any other failure surfaces immediately with no
retry. -/
theorem retry_only_reset_and_bounded :
    (∀ (n : Int), 1 ≤ n →
      ∀ (ambient : Option String) (server : Nat → AttemptOutcome)
        (request : GraphQlRequest) (opts : ClientOptions) (idx : Nat),
          opts.maxRetries = n →
          (graphQlClient ambient server request opts idx).2.length ≤ n.toNat ∧
          ∀ k, k + 1 < (graphQlClient ambient server request opts idx).2.length →
            server (idx + k) = AttemptOutcome.reset) ∧
    (∀ (ambient : Option String) (server : Nat → AttemptOutcome)
        (request : GraphQlRequest) (opts : ClientOptions) (idx : Nat) (code : String),
        regionMissing (resolveRegion opts.region opts.appsyncUrl ambient) = false →
        server idx = AttemptOutcome.otherError code →
        graphQlClient ambient server request opts idx
          = (.error (.errnoError code),
             [opts.timeoutMs.getD APPSYNC_MAX_QUERY_RUNTIME_MS])) ∧
    graphQlClient none resetTwiceServer pageRequest optsRetry3 0
      = (.ok ⟨200, .json "page-payload"⟩, [30000, 30000, 30000]) ∧
    graphQlClient none alwaysResetServer pageRequest optsRetry1 0
      = (.error (.errnoError "ECONNRESET"), [30000]) := by
  refine ⟨?_, ?_, ?_, ?_⟩
  · intro n hn ambient server request opts idx hmr
    constructor
    · have hb := graphQlClient_length_le ambient server request
        opts.maxRetries.toNat opts idx le_rfl
      rw [hmr] at hb
      omega
    · intro k hk
      exact graphQlClient_retried_reset ambient server request
        opts.maxRetries.toNat opts idx le_rfl k hk
  · intro ambient server request opts idx code hm hs
    exact graphQlClient_other_step ambient server request opts idx code hm hs
  · have hib : interpretBody (some "application/json") "page-payload"
        = .json "page-payload" := by decide
    have hne : "eu-west-1".isEmpty = false := by decide
    simp [graphQlClient, resolveRegion, regionMissing, optsRetry3, resetTwiceServer,
          APPSYNC_MAX_QUERY_RUNTIME_MS, hib, hne]
  · have hne : "eu-west-1".isEmpty = false := by decide
    simp [graphQlClient, resolveRegion, regionMissing, optsRetry1, alwaysResetServer,
          APPSYNC_MAX_QUERY_RUNTIME_MS, hne]

/-- Witness for C1: the attempt bound applied at the concrete three-retry
scenario, with its hypotheses discharged there. -/
theorem retry_only_reset_and_bounded_witness :
    (graphQlClient none resetTwiceServer pageRequest optsRetry3 0).2.length
      ≤ (3 : Int).toNat :=
  (retry_only_reset_and_bounded.1 3 (by norm_num) none resetTwiceServer pageRequest
    optsRetry3 0 rfl).1

/-- Claim C2 (counterexample) — with a caller-supplied `timeoutMs = 1000` and
a reset on the first attempt, the retried attempt runs under the default
30000 ms window, not under a fresh 1000 ms window: the windows actually used
are `[1000, 30000]` and the eventual `TimeoutError` names 30000 ms. -/
theorem retry_window_not_caller_timeout_cex :
    graphQlClient none resetThenTimeoutServer pageRequest optsShortTimeout 0
      = (.error (.timeoutError 30000 pageRequest), [1000, 30000]) ∧
    optsShortTimeout.timeoutMs = some 1000 ∧ (30000 : Int) ≠ 1000 := by
  refine ⟨?_, rfl, by norm_num⟩
  have hne : "eu-west-1".isEmpty = false := by decide
  simp [graphQlClient, resolveRegion, regionMissing, optsShortTimeout,
        resetThenTimeoutServer, APPSYNC_MAX_QUERY_RUNTIME_MS, hne]

/-- Claim C2 (amended) — each retried attempt runs under a fresh, full
per-attempt window of the default timeout (30000 ms), whatever the caller's
`timeoutMs`; the caller's value applies to the first attempt only, and no
deadline is shared or decremented across attempts. -/
theorem retry_window_fresh_default :
    ∀ (ambient : Option String) (server : Nat → AttemptOutcome)
      (request : GraphQlRequest) (opts : ClientOptions) (idx : Nat),
      regionMissing (resolveRegion opts.region opts.appsyncUrl ambient) = false →
      ∃ ws, (graphQlClient ambient server request opts idx).2
          = opts.timeoutMs.getD APPSYNC_MAX_QUERY_RUNTIME_MS :: ws
        ∧ ∀ w ∈ ws, w = APPSYNC_MAX_QUERY_RUNTIME_MS := by
  intro ambient server request opts idx hm
  exact graphQlClient_windows ambient server request opts.maxRetries.toNat opts idx le_rfl hm

/-- Witness for the amended C2, at the 1000 ms scenario. -/
theorem retry_window_fresh_default_witness :
    ∃ ws, (graphQlClient none resetThenTimeoutServer pageRequest optsShortTimeout 0).2
        = (1000 : Int) :: ws ∧ ∀ w ∈ ws, w = APPSYNC_MAX_QUERY_RUNTIME_MS :=
  retry_window_fresh_default none resetThenTimeoutServer pageRequest optsShortTimeout 0
    (by decide)

/-- Claim C3 — `call` raises exactly when the body is plain text (with the
raw text in the error) or when it is JSON whose errors list is non-empty,
even under status 200; otherwise it returns only the data payload; in
particular a 200-status JSON body with `data: null` and one error rejects. -/
theorem call_raises_exactly_on_text_or_errors :
    (∀ (sc : Nat) (body : String ⊕ GraphQlResponseM),
      (∃ e, appSyncClientSurface sc body = .error e) ↔
        ((∃ raw, body = .inl raw) ∨
         (∃ r es, body = .inr r ∧ r.errors = some es ∧ es ≠ []))) ∧
    (∀ (sc : Nat) (raw : String),
      appSyncClientSurface sc (.inl raw)
        = .error (.requestFailed ("Request to GraphQL failed: " ++ raw))) ∧
    (∀ (sc : Nat) (r : GraphQlResponseM),
      r.errors = none ∨ r.errors = some [] →
      appSyncClientSurface sc (.inr r) = .ok r.data) ∧
    appSyncClientSurface 200 (.inr { data := none, errors := some [sampleGraphQLError] })
      = .error (.graphQlErrors [sampleGraphQLError]) := by
  refine ⟨?_, ?_, ?_, by decide⟩
  · intro sc body
    cases body with
    | inl raw => simp [appSyncClientSurface]
    | inr r =>
      cases hr : r.errors with
      | none => simp [appSyncClientSurface, hr]
      | some es =>
        cases es with
        | nil => simp [appSyncClientSurface, hr]
        | cons e es' => simp [appSyncClientSurface, hr]
  · intro sc raw
    rfl
  · intro sc r hr
    rcases hr with hr | hr <;> simp [appSyncClientSurface, hr]

/-- Witness for C3: an error-free JSON body returns only the data payload. -/
theorem call_raises_exactly_on_text_or_errors_witness :
    appSyncClientSurface 200 (.inr { data := some "page-payload" })
      = .ok (some "page-payload") :=
  call_raises_exactly_on_text_or_errors.2.2.1 200 { data := some "page-payload" }
    (Or.inl rfl)

/-- Claim C4 (counterexample) — the normaliser is not idempotent on its own
output: `gqlNorm "# x\nb" = "\nb"` is an output of the normaliser on a single
literal segment, yet normalising it again yields `"b"`. -/
theorem gql_idempotence_cex :
    gqlNorm "# x\nb" = "\nb" ∧
    gqlNorm (gqlNorm "# x\nb") = "b" ∧
    gqlNorm (gqlNorm "# x\nb") ≠ gqlNorm "# x\nb" := by decide

/-- Claim C4 (amended) — normalising an already-normalised query is not an
identity in general: it is one at the theorem's representative queries — the
repository's own example and the suite's mutation and query literals, whose
normal forms are fixed points of the normaliser — while a query opening with
a removable comment line keeps a leading whitespace remnant in its normal
form that only a second normalisation strips, also with a carriage return:
the image element `gqlNorm "# x\ra" = "\ra"` renormalises to `"a"`. -/
theorem gql_idempotent_on_example :
    gqlNorm (gql [testChunk1, testChunk2] ["name\nage\nsex"])
      = gql [testChunk1, testChunk2] ["name\nage\nsex"] ∧
    gqlNorm (gqlNorm mutationChunk) = gqlNorm mutationChunk ∧
    gqlNorm (gqlNorm queryChunk) = gqlNorm queryChunk ∧
    gqlNorm "# x\ra" = "\ra" ∧
    gqlNorm (gqlNorm "# x\ra") = "a" := by decide

/-- Claim C5 (counterexample) — an endpooint whose host matches
`<id>.<region>.amazonaws.com` but whose URL text ends right after the host
has no region inferred: the inference regexp demands a `/` after
`.amazonaws.com`, so with no explicit region and no ambient default the
resolved region stays missing. -/
theorem region_host_pattern_cex :
    awsHostPattern "abc.appsync-api.eu-west-1.amazonaws.com" = true ∧
    resolveRegion none "https://abc.appsync-api.eu-west-1.amazonaws.com" none = none ∧
    regionMissing
      (resolveRegion none "https://abc.appsync-api.eu-west-1.amazonaws.com" none) = true := by
  decide

/-- Claim C5 (amended) — with no explicit region and no ambient default, the
region is inferred from the URL when the host pattern is followed by `/` in
the URL text (as with the `/graphql` path): `eu-west-1` for the example; an
explicit region always wins, and the ambient default is used only when
inference fails. -/
theorem region_inferred_with_path :
    resolveRegion none "https://abc.appsync-api.eu-west-1.amazonaws.com/graphql" none
      = some "eu-west-1" ∧
    resolveRegion (some "us-east-2")
        "https://abc.appsync-api.eu-west-1.amazonaws.com/graphql" (some "us-west-2")
      = some "us-east-2" ∧
    resolveRegion none "http://localhost:20002/graphql" (some "eu-west-1")
      = some "eu-west-1" := by
  decide

/-- Claim C6 — the body is parsed as JSON exactly when the content-type
header contains `application/json` as a case-insensitive substring; for every
other content type (or an absent header) the raw body text is returned
unchanged. -/
theorem json_parse_iff_content_type :
    ∀ (ct : Option String) (bodyText : String),
      (interpretBody ct bodyText = Body.json bodyText ↔
        containsCaseInsensitive ct "application/json" = true) ∧
      (containsCaseInsensitive ct "application/json" = false →
        interpretBody ct bodyText = Body.text bodyText) := by
  intro ct bodyText
  have hc := ctDecision_eq_ci ct
  constructor
  · constructor
    · intro h
      by_cases hx : containsCaseInsensitive ct "application/json" = true
      · exact hx
      · have hx' : containsCaseInsensitive ct "application/json" = false := by
          cases hy : containsCaseInsensitive ct "application/json" <;> simp_all
        rw [interpretBody, hc, hx'] at h
        simp at h
    · intro h
      rw [interpretBody, hc, h]
      simp
  · intro h
    rw [interpretBody, hc, h]
    simp

/-- Witness for C6: an uppercase JSON content type parses, a plain-text one
does not. -/
theorem json_parse_iff_content_type_witness :
    interpretBody (some "APPLICATION/JSON; charset=utf-8") "x" = Body.json "x" ∧
    interpretBody (some "text/plain") "oops" = Body.text "oops" :=
  ⟨(json_parse_iff_content_type (some "APPLICATION/JSON; charset=utf-8") "x").1.mpr
      (by decide),
   (json_parse_iff_content_type (some "text/plain") "oops").2 (by decide)⟩

/-- Claim C7 — when the server does not complete within the per-attempt
window, `execute` rejects with a `TimeoutError` whose request field is the
original request (the wall-clock bound itself is abstracted into the
transport outcome). -/
theorem timeout_rejects_with_request :
    ∀ (ambient : Option String) (server : Nat → AttemptOutcome)
      (request : GraphQlRequest) (opts : ClientOptions) (idx : Nat),
      regionMissing (resolveRegion opts.region opts.appsyncUrl ambient) = false →
      server idx = AttemptOutcome.timeout →
      graphQlClient ambient server request opts idx
        = (.error (.timeoutError (opts.timeoutMs.getD APPSYNC_MAX_QUERY_RUNTIME_MS) request),
           [opts.timeoutMs.getD APPSYNC_MAX_QUERY_RUNTIME_MS]) := by
  intro ambient server request opts idx hm hs
  exact graphQlClient_timeout_step ambient server request opts idx hm hs

/-- Witness for C7, at a concrete delayed server. -/
theorem timeout_rejects_with_request_witness :
    graphQlClient none alwaysTimeoutServer pageRequest optsRetry1 0
      = (.error (.timeoutError 30000 pageRequest), [30000]) :=
  timeout_rejects_with_request none alwaysTimeoutServer pageRequest optsRetry1 0
    (by decide) rfl

/-- Claim C8 (counterexample) — a comment line whose `#` is directly followed
by the letters `import` is preserved even when it does not match the
`#import "..."` pragma shape: `#important` survives normalisation although
its first non-whitespace character is `#`. -/
theorem comment_removal_cex :
    gqlNorm "#important\nquery" = "#important\nquery" ∧
    gqlNorm "#important\nquery" ≠ "query" := by decide

/-- Claim C8 (amended) — at the theorem's representative inputs: a `# note`
line is removed; a line whose `#` is directly followed by the letters
`import` is preserved verbatim, whether a true pragma (`#import "x.graphql"`)
or not (`#important`); `# import "x.graphql"` (whitespace before `import`) is
removed; and neither removal nor pragma preservation is an unconditional
per-line rule, since a bare `#` comment line whose match spans the line break
swallows a following true pragma: `"#\n#import \"x.graphql\""` normalises to
the empty string. -/
theorem comment_removal_amended :
    gqlNorm "a\n# note\nb" = "a\nb" ∧
    gqlNorm "#import \"x.graphql\"\nquery" = "#import \"x.graphql\"\nquery" ∧
    gqlNorm "#important\nquery" = "#important\nquery" ∧
    gqlNorm "head\n# import \"x.graphql\"\nquery" = "head\nquery" ∧
    gqlNorm "#\n#import \"x.graphql\"" = "" := by decide

/-- Claim C9 (counterexample) — input consisting only of removable comment
lines need not normalise to the empty string: two comment lines leave the
separating newline behind. -/
theorem comment_only_cex :
    gqlNorm "# x\n# y" = "\n" ∧ gqlNorm "# x\n# y" ≠ "" := by decide

/-- Claim C9 (amended) — the empty input, any whitespace-only input, and a
single removable comment line (with or without a trailing newline) normalise
to the empty string; several comment lines can instead leave a newline. -/
theorem comment_only_amended :
    (∀ s : String, s.data.all jsWhitespace = true → gqlNorm s = "") ∧
    gqlNorm "" = "" ∧ gqlNorm "# note" = "" ∧ gqlNorm "# note\n" = "" ∧
    gqlNorm "  \n# c\n  " = "" := by
  refine ⟨fun s h => gqlNorm_all_ws s h, by decide, by decide, by decide, by decide⟩

/-- Witness for the amended C9, at a concrete whitespace-only input. -/
theorem comment_only_amended_witness : gqlNorm " \t\n" = "" :=
  comment_only_amended.1 " \t\n" (by decide)

/-- Claim C10 — with no explicit region, a URL from which the pattern can
parse nothing (it requires `/` right after `.amazonaws.com`) and no ambient
`AWS_REGION`, the client throws the `ReferenceError` with an empty attempt
trace — before any request is built or any network I/O happens — whatever
`apiKey` the options carry. -/
theorem region_missing_reference_error :
    (∀ (server : Nat → AttemptOutcome) (request : GraphQlRequest)
        (opts : ClientOptions) (idx : Nat),
        opts.region = none →
        inferRegion opts.appsyncUrl = none →
        graphQlClient none server request opts idx
          = (.error (.referenceError "region is required, but was not provided"), [])) ∧
    inferRegion "https://abc.appsync-api.eu-west-1.amazonaws.com" = none ∧
    inferRegion "https://abc.appsync-api.eu-west-1.amazonaws.com/graphql"
      = some "eu-west-1" := by
  refine ⟨?_, by decide, by decide⟩
  intro server request opts idx hr hi
  apply graphQlClient_regionMissing
  simp [resolveRegion, hr, hi, regionMissing]

/-- Witness for C10, with an API key supplied and no path after the host. -/
theorem region_missing_reference_error_witness :
    graphQlClient none alwaysResetServer pageRequest optsNoRegion 0
      = (.error (.referenceError "region is required, but was not provided"), []) :=
  region_missing_reference_error.1 alwaysResetServer pageRequest optsNoRegion 0
    rfl (by decide)

end AppSyncClientNode
